import Mathlib

/-!
# Verification of the harvest-code scheduler/runner core

Shallow embedding, in Lean 4, of the parts of the `harvest-code` repository
that the checked claims are about:

* `harvest_ir` crate: `Id` allocation (`src/ir/src/id.rs`), the `Edit`
  staging area (`src/ir/src/edit.rs`), the `HarvestIR` map, and the
  directory-tree representation `RawDir` (`src/ir/src/raw_source.rs`).
* `harvest_translate` crate: the `Scheduler` (`src/translate/src/scheduler.rs`),
  the `ToolRunner` (`src/translate/src/runner.rs`), the main-loop attempt
  callback (`src/translate/src/lib.rs`), the diagnostics `Collector` /
  `Reporter` (`src/translate/src/diagnostics.rs` and
  `src/translate/src/diagnostics/mod.rs`), and the `might_write` methods of
  the shipped tools (`src/translate/src/tools/`).

Machine integers of the source (u64 ids, counters) are modelled as `Nat`;
the source treats counter overflow as a process abort, which is unreachable
in any execution we model, so arithmetic is exact.

Filesystem side effects (diagnostics) are modelled as explicit effect
traces; fallible I/O primitives are driven by explicit failure oracles.
-/

namespace Harvest

/-- IDs are `NonZeroU64` in the source (`src/ir/src/id.rs`); we model them as
natural numbers (the allocator only ever produces positive values). -/
abbrev Id := Nat

/-! ## Id allocator (`src/ir/src/id.rs`)

`new_array_testable(highest_id)` performs `prev = fetch_add(LEN)` on the
counter and returns the ids `prev+1, prev+2, …, prev+LEN`, leaving the
counter at `prev+LEN`. We model the counter as explicit state. -/

/-- `new_array_testable` from `src/ir/src/id.rs:44`: starting from counter
value `c`, allocate `n` consecutive ids `c+1 … c+n` in one atomic step and
return them together with the updated counter `c + n`. -/
def new_array_testable (c n : Nat) : List Id × Nat :=
  (List.range' (c + 1) n, c + n)

/-- A sequence of allocator calls of the given sizes, threading the counter
through. Returns the list of returned id blocks and the final counter.
Atomicity of `fetch_add` means every concurrent execution is equivalent to
some such sequence of calls. -/
def allocSeq : Nat → List Nat → List (List Id) × Nat
  | c, [] => ([], c)
  | c, n :: ns =>
      let (block, c') := new_array_testable c n
      let (blocks, c'') := allocSeq c' ns
      (block :: blocks, c'')

/-! ## Edit (`src/ir/src/edit.rs`)

`Edit.writable : HashMap<Id, Option<Arc<Representation>>>` is modelled as a
map from `Id` to `Option (Option R)`:

* `none` — the id is not writable by this edit;
* `some none` — writable, nothing staged yet;
* `some (some r)` — writable, `r` staged. -/

/-- The `Edit` staging area (`src/ir/src/edit.rs:16`), generic over the
representation type (the source stores `Arc<dyn Representation>`). -/
structure Edit (R : Type) where
  writable : Id → Option (Option R)

/-- Error type `NotWritable` (`src/ir/src/edit.rs:82`). -/
inductive NotWritable where
  | notWritable
deriving DecidableEq, Repr

/-- `Edit::new(might_change)` (`src/ir/src/edit.rs:28`): every id of the
given set becomes writable with nothing staged. -/
def Edit.new {R : Type} (W : Finset Id) : Edit R :=
  ⟨fun id => if id ∈ W then some none else none⟩

/-- `Edit::add_representation` (`src/ir/src/edit.rs:35`): allocates a fresh
id (via `Id::new`, i.e. counter + 1), stages the representation under it.
Returns the new id, the updated edit and the updated allocator counter. -/
def Edit.addRepresentation {R : Type} (e : Edit R) (r : R) (c : Nat) :
    Id × Edit R × Nat :=
  (c + 1, ⟨fun i => if i = c + 1 then some (some r) else e.writable i⟩, c + 1)

/-- `Edit::new_id` (`src/ir/src/edit.rs:51`): allocates a fresh id, marks it
writable with nothing staged. -/
def Edit.newId {R : Type} (e : Edit R) (c : Nat) : Id × Edit R × Nat :=
  (c + 1, ⟨fun i => if i = c + 1 then some none else e.writable i⟩, c + 1)

/-- `Edit::try_write_id` (`src/ir/src/edit.rs:59`): stages `r` under `id` if
`id` is writable (`HashMap::get_mut` succeeds), otherwise fails with
`NotWritable` and leaves the edit untouched. Returns the (possibly updated)
edit together with the `Result`. -/
def Edit.tryWriteId {R : Type} (e : Edit R) (id : Id) (r : R) :
    Edit R × Except NotWritable Unit :=
  match e.writable id with
  | none => (e, .error .notWritable)
  | some _ => (⟨fun i => if i = id then some (some r) else e.writable i⟩, .ok ())

/-- `Edit::changed_ids` (`src/ir/src/edit.rs:42`) as a predicate: the ids
that currently hold a staged representation. (The source returns them as a
`Vec`; only membership matters to the claims.) -/
def Edit.changed {R : Type} (e : Edit R) (id : Id) : Prop :=
  ∃ r, e.writable id = some (some r)

/-- One operation a tool can perform on its `Edit` (the mutating part of the
`Edit` API from `src/ir/src/edit.rs`). -/
inductive EditOp (R : Type) where
  | addRepr (r : R)
  | newId
  | tryWrite (id : Id) (r : R)

/-- Runs a sequence of `Edit` operations, threading the edit and the
process-global id counter. -/
def applyOps {R : Type} : Edit R → Nat → List (EditOp R) → Edit R × Nat
  | e, c, [] => (e, c)
  | e, c, .addRepr r :: ops =>
      let (_, e', c') := e.addRepresentation r c
      applyOps e' c' ops
  | e, c, .newId :: ops =>
      let (_, e', c') := e.newId c
      applyOps e' c' ops
  | e, c, .tryWrite id r :: ops =>
      applyOps (e.tryWriteId id r).1 c ops

/-- The set of ids allocated through the edit (by `add_representation` or
`new_id`) while running `ops` from counter `c`. -/
def allocatedIds {R : Type} : Nat → List (EditOp R) → Finset Id
  | _, [] => ∅
  | c, .addRepr _ :: ops => insert (c + 1) (allocatedIds (c + 1) ops)
  | c, .newId :: ops => insert (c + 1) (allocatedIds (c + 1) ops)
  | c, .tryWrite _ _ :: ops => allocatedIds c ops

/-- Running operations never removes ids from the writable domain, and adds
exactly the allocated ids. -/
theorem writable_domain_applyOps {R : Type} (ops : List (EditOp R)) :
    ∀ (e : Edit R) (c : Nat) (id : Id),
      (((applyOps e c ops).1).writable id).isSome ↔
        (e.writable id).isSome ∨ id ∈ allocatedIds c ops := by
  induction ops with
  | nil => intro e c id; simp [applyOps, allocatedIds]
  | cons op ops ih =>
    intro e c id
    cases op with
    | addRepr r =>
      simp only [applyOps, Edit.addRepresentation, allocatedIds, ih,
        Finset.mem_insert]
      by_cases h : id = c + 1 <;> simp [h]
    | newId =>
      simp only [applyOps, Edit.newId, allocatedIds, ih, Finset.mem_insert]
      by_cases h : id = c + 1 <;> simp [h]
    | tryWrite wid r =>
      simp only [applyOps, allocatedIds, ih]
      unfold Edit.tryWriteId
      cases hw : e.writable wid with
      | none => simp
      | some v =>
        simp only
        by_cases h : id = wid <;> simp [h, hw]

/-- **C1.** For every `Edit` constructed over a writable set `W` (and then
modified by any sequence of `add_representation` / `new_id` / `try_write_id`
operations), a write via `try_write_id` succeeds exactly when the target id
is in `W` or was allocated through this same edit; for any other id the
write fails with `NotWritable` and leaves the edit's staged contents
unchanged. -/
theorem edit_try_write_succeeds_iff_writable {R : Type} (W : Finset Id)
    (c : Nat) (ops : List (EditOp R)) (id : Id) (r : R) :
    (((applyOps (Edit.new W) c ops).1.tryWriteId id r).2 = .ok () ↔
      id ∈ W ∨ id ∈ allocatedIds c ops) ∧
    (((applyOps (Edit.new W) c ops).1.tryWriteId id r).2 =
        .error .notWritable →
      ((applyOps (Edit.new W) c ops).1.tryWriteId id r).1 =
        (applyOps (Edit.new W) c ops).1) := by
  have hdom := writable_domain_applyOps (R := R) ops (Edit.new W) c id
  have hW : ((Edit.new (R := R) W).writable id).isSome ↔ id ∈ W := by
    by_cases h : id ∈ W <;> simp [Edit.new, h]
  rw [hW] at hdom
  constructor
  · rw [← hdom]
    unfold Edit.tryWriteId
    cases hw : ((applyOps (Edit.new W) c ops).1).writable id <;> simp [hw]
  · unfold Edit.tryWriteId
    cases hw : ((applyOps (Edit.new W) c ops).1).writable id <;> simp [hw]

/-- Witness for C1: over the writable set `{1, 2}`, with one id (`6`)
allocated through the edit at counter `5`, writes to `1` and `6` succeed and
a write to `3` fails. -/
theorem edit_try_write_succeeds_iff_writable_witness :
    (((applyOps (R := Nat) (Edit.new {1, 2}) 5 [.newId]).1.tryWriteId 3
        0).2 = .ok () ↔ (3 : Id) ∈ ({1, 2} : Finset Id) ∨
      (3 : Id) ∈ allocatedIds (R := Nat) 5 [.newId]) ∧
    (((applyOps (R := Nat) (Edit.new {1, 2}) 5 [.newId]).1.tryWriteId 3
        0).2 = .error .notWritable →
      ((applyOps (R := Nat) (Edit.new {1, 2}) 5 [.newId]).1.tryWriteId 3
        0).1 = (applyOps (R := Nat) (Edit.new {1, 2}) 5 [.newId]).1) :=
  edit_try_write_succeeds_iff_writable {1, 2} 5 [.newId] 3 0

/-- The blocks returned by a sequence of allocator calls starting at counter
`c` are exactly the ids `c+1 … c + sum`, in order, and the counter ends at
`c + sum`. -/
theorem allocSeq_flatten (ns : List Nat) :
    ∀ c : Nat,
      (allocSeq c ns).1.flatten = List.range' (c + 1) ns.sum ∧
        (allocSeq c ns).2 = c + ns.sum := by
  induction ns with
  | nil => intro c; simp [allocSeq]
  | cons n ns ih =>
    intro c
    have h := ih (c + n)
    simp only [allocSeq, new_array_testable, List.flatten_cons, h.1, h.2,
      List.sum_cons]
    constructor
    · have harr := List.range'_append (c + 1) n ns.sum 1
      simp only [one_mul] at harr
      rw [Nat.add_comm n ns.sum, ← harr]
      congr 2
      omega
    · omega

/-- **C4.** Starting from a fresh counter (`HIGHEST_ID = 0`), every call of
`new_array_testable` returns a block of consecutive ids in one step; blocks
of distinct calls are pairwise disjoint, and the union of all ids returned
across any sequence of allocations of sizes `ns` is exactly
`{1, 2, …, ns.sum}` — no duplicates and no gaps. -/
theorem alloc_ids_exactly_initial_range (ns : List Nat) :
    (∀ c n, (new_array_testable c n).1 = List.range' (c + 1) n) ∧
    (allocSeq 0 ns).1.flatten = List.range' 1 ns.sum ∧
    (allocSeq 0 ns).1.flatten.Nodup ∧
    List.Pairwise List.Disjoint (allocSeq 0 ns).1 := by
  have h := allocSeq_flatten ns 0
  refine ⟨fun c n => rfl, h.1, ?_, ?_⟩
  · rw [h.1]; exact List.nodup_range' _ _
  · exact (List.nodup_flatten.mp (h.1 ▸ List.nodup_range' _ _)).2

/-! ## Organizer and runner (`src/translate/src/runner.rs`)

`harvest_ir::edit::Organizer` itself is not among the source files (only its
callers and tests are), so its `apply_edit` is modelled from the spec. The
runner logic (`ToolRunner::spawn_tool` worker body and
`ToolRunner::process_tool_results`) is translated from the source. -/

/-- Modelled from the spec: `harvest_ir::edit::Organizer` is not under
`src/`; per §3/§4.5 it owns the authoritative current IR snapshot (a map
from `Id` to `Representation`). Reservation bookkeeping is not needed by
the claims settled here and is omitted. -/
structure Organizer (R : Type) where
  snapshot : Id → Option R

/-- Modelled from the spec: `Organizer::apply_edit` is not under `src/`.
Per §4.5, apply produces a new IR by copying the current snapshot and
inserting/overriding each staged representation of the edit, then publishes
it (validation of reservations cannot fail for an edit produced by this
organizer, so the success path is modelled). -/
def Organizer.applyEdit {R : Type} (o : Organizer R) (e : Edit R) :
    Organizer R :=
  ⟨fun id =>
    match e.writable id with
    | some (some r) => some r
    | _ => o.snapshot id⟩

/-- Outcome of `catch_unwind(move || tool.run(..))` in the worker thread
(`src/translate/src/runner.rs:78`): the tool returned `Ok`, returned an
error, or panicked (the panic is caught at the worker boundary). -/
inductive ToolRunOutcome where
  | ok
  | error
  | panicked
deriving DecidableEq, Repr

/-- The value the worker thread ships back through its join handle
(`src/translate/src/runner.rs:87`–`97`): the edit on success, `Err(())`
after a tool error or a caught panic (both are logged and the edit is
dropped). -/
def workerResult {R : Type} (outcome : ToolRunOutcome) (finalEdit : Edit R) :
    Except Unit (Edit R) :=
  match outcome with
  | .ok => .ok finalEdit
  | .error => .error ()
  | .panicked => .error ()

/-- Processing of one reaped worker in `ToolRunner::process_tool_results`
(`src/translate/src/runner.rs:50`–`54`): if the worker shipped an edit, it
is applied to the organizer; otherwise nothing is applied. -/
def processReaped {R : Type} (org : Organizer R)
    (result : Except Unit (Edit R)) : Organizer R :=
  match result with
  | .ok edit => org.applyEdit edit
  | .error _ => org

/-- **C2.** For every reaped worker, the runner applies the worker's edit to
the organizer exactly when the tool's `run` returned `Ok`; when `run`
returned an error or panicked, the edit is discarded and the IR held by the
organizer is unchanged. -/
theorem runner_applies_edit_only_on_ok {R : Type} (org : Organizer R)
    (edit : Edit R) (outcome : ToolRunOutcome) :
    processReaped org (workerResult .ok edit) = org.applyEdit edit ∧
    processReaped org (workerResult (R := R) .error edit) = org ∧
    processReaped org (workerResult (R := R) .panicked edit) = org ∧
    (outcome ≠ .ok →
      ∀ id, (processReaped org (workerResult outcome edit)).snapshot id =
        org.snapshot id) := by
  refine ⟨rfl, rfl, rfl, fun h id => ?_⟩
  cases outcome with
  | ok => exact absurd rfl h
  | error => rfl
  | panicked => rfl

/-- Witness for C2: a panicked run leaves a concrete one-entry snapshot
unchanged at id `1`. -/
theorem runner_applies_edit_only_on_ok_witness :
    (processReaped ⟨fun id => if id = 1 then some 7 else none⟩
        (workerResult (R := Nat) .panicked (Edit.new ∅))).snapshot 1 =
      Organizer.snapshot ⟨fun id => if id = 1 then some 7 else none⟩ 1 :=
  (runner_applies_edit_only_on_ok ⟨fun id => if id = 1 then some 7 else none⟩
    (Edit.new ∅) .panicked).2.2.2 (by decide) 1

/-- **C3.** After `apply_edit(e)`, the published snapshot maps every id in
`changed_ids(e)` to the representation staged in `e`, and every other id to
its representation in the prior snapshot; no id present in the prior
snapshot is removed. -/
theorem apply_edit_snapshot_union {R : Type} (o : Organizer R) (e : Edit R)
    (id : Id) :
    (∀ r, e.writable id = some (some r) →
      (o.applyEdit e).snapshot id = some r) ∧
    (¬ e.changed id → (o.applyEdit e).snapshot id = o.snapshot id) ∧
    (o.snapshot id ≠ none → (o.applyEdit e).snapshot id ≠ none) := by
  refine ⟨fun r hr => ?_, fun hnc => ?_, fun hne => ?_⟩
  · simp [Organizer.applyEdit, hr]
  · cases hw : e.writable id with
    | none => simp [Organizer.applyEdit, hw]
    | some v =>
      cases v with
      | none => simp [Organizer.applyEdit, hw]
      | some r => exact absurd ⟨r, hw⟩ hnc
  · cases hw : e.writable id with
    | none => simpa [Organizer.applyEdit, hw] using hne
    | some v =>
      cases v with
      | none => simpa [Organizer.applyEdit, hw] using hne
      | some r => simp [Organizer.applyEdit, hw]

/-- Witness for C3: applying an edit that stages `9` under id `2` to a
snapshot containing id `1` yields `9` at id `2`, keeps id `1` unchanged and
removes nothing. -/
theorem apply_edit_snapshot_union_witness :
    ((Organizer.applyEdit (R := Nat) ⟨fun id => if id = 1 then some 7
          else none⟩
        ⟨fun id => if id = 2 then some (some 9) else none⟩).snapshot 1 =
      Organizer.snapshot (R := Nat)
        ⟨fun id => if id = 1 then some 7 else none⟩ 1) ∧
    ((Organizer.applyEdit (R := Nat) ⟨fun id => if id = 1 then some 7
          else none⟩
        ⟨fun id => if id = 2 then some (some 9) else none⟩).snapshot 2 =
      some 9) := by
  constructor
  · exact (apply_edit_snapshot_union ⟨fun id => if id = 1 then some 7
        else none⟩ ⟨fun id => if id = 2 then some (some 9) else none⟩
        1).2.1 (by simp [Edit.changed])
  · exact (apply_edit_snapshot_union ⟨fun id => if id = 1 then some 7
        else none⟩ ⟨fun id => if id = 2 then some (some 9) else none⟩
        2).1 9 (by simp)

/-! ## Scheduler (`src/translate/src/scheduler.rs`)

`Scheduler` keeps a `Vec<ToolInvocation>`; `next_invocations(f)` runs
`queued_invocations.retain(|i| f(i) == Wait)`, i.e. it calls `f` once per
queued invocation in insertion order and keeps (in place) exactly those
whose outcome is `Wait`. We model the queue generically over the invocation
type. -/

/-- `InvocationOutcome` (`src/translate/src/scheduler.rs:35`). -/
inductive InvocationOutcome where
  | discard
  | success
  | wait
deriving DecidableEq, Repr

/-- The scheduler's FIFO queue (`src/translate/src/scheduler.rs:9`). -/
structure Scheduler (τ : Type) where
  queuedInvocations : List τ

/-- `Scheduler::next_invocations` (`src/translate/src/scheduler.rs:16`):
`retain` visits every queued invocation once, in order, and keeps those
with outcome `Wait` in their positions. Returns the new scheduler state and
the list of invocations visited, in visit order. -/
def Scheduler.nextInvocations {τ : Type} (s : Scheduler τ)
    (f : τ → InvocationOutcome) : Scheduler τ × List τ :=
  (⟨s.queuedInvocations.filter (fun i => f i = .wait)⟩, s.queuedInvocations)

/-- `Scheduler::queue_invocation` (`src/translate/src/scheduler.rs:28`):
append at the tail. -/
def Scheduler.queueInvocation {τ : Type} (s : Scheduler τ) (i : τ) :
    Scheduler τ :=
  ⟨s.queuedInvocations ++ [i]⟩

/-- **C5 counterexample.** The claim says a `Wait`ing invocation is
re-queued at the tail so that, across ticks, re-queued invocations appear
in the queue after fresh arrivals. Concretely: queue the invocation `0`,
run a tick in which it asks to be tried later, then queue the fresh
invocation `1`. The claim predicts the queue `[1, 0]` (fresh before
re-queued); the code retains `0` in place and appends `1`, producing
`[0, 1]`. -/
theorem scheduler_requeue_tail_counterexample :
    ((Scheduler.mk (τ := Nat) [0]).nextInvocations
          (fun _ => .wait)).1.queueInvocation 1 =
        Scheduler.mk [0, 1] ∧
      Scheduler.mk (τ := Nat) [0, 1] ≠ Scheduler.mk [1, 0] := by
  constructor
  · rfl
  · intro h
    exact absurd (congrArg Scheduler.queuedInvocations h) (by decide)

/-- **C5 amended.** Within one call to `next_invocations` the scheduler
visits the queued invocations exactly once each, in insertion (FIFO) order;
an invocation whose outcome is `Wait` is retained in its existing position
(so across ticks it appears *before* invocations queued later), while
invocations with any other outcome are removed from the queue. -/
theorem scheduler_retains_waiting_in_place {τ : Type} (q : List τ)
    (f : τ → InvocationOutcome) (fresh : τ) :
    ((Scheduler.mk q).nextInvocations f).2 = q ∧
    ((Scheduler.mk q).nextInvocations f).1.queuedInvocations.Sublist q ∧
    (∀ t ∈ q, f t = .wait →
      t ∈ ((Scheduler.mk q).nextInvocations f).1.queuedInvocations) ∧
    (∀ t, f t ≠ .wait →
      t ∉ ((Scheduler.mk q).nextInvocations f).1.queuedInvocations) ∧
    (((Scheduler.mk q).nextInvocations f).1.queueInvocation
        fresh).queuedInvocations =
      q.filter (fun i => f i = .wait) ++ [fresh] := by
  refine ⟨rfl, List.filter_sublist q, fun t ht hw => ?_, fun t hw hmem => ?_,
    rfl⟩
  · exact List.mem_filter.mpr ⟨ht, by simp [hw]⟩
  · exact hw (by simpa using (List.mem_filter.mp hmem).2)

/-- Witness for C5 (amended): a concrete tick over the queue `[0, 1, 2]`
where `0` waits, `1` succeeds and `2` is discarded retains exactly `[0]`,
and a fresh arrival lands behind it. -/
theorem scheduler_retains_waiting_in_place_witness :
    (((Scheduler.mk (τ := Nat) [0, 1, 2]).nextInvocations
          (fun i => if i = 0 then .wait else if i = 1 then .success
            else .discard)).1.queueInvocation 3).queuedInvocations =
        [0, 3] ∧
      (0 : Nat) ∈ ((Scheduler.mk (τ := Nat) [0, 1, 2]).nextInvocations
          (fun i => if i = 0 then .wait else if i = 1 then .success
            else .discard)).1.queuedInvocations ∧
      (1 : Nat) ∉ ((Scheduler.mk (τ := Nat) [0, 1, 2]).nextInvocations
          (fun i => if i = 0 then .wait else if i = 1 then .success
            else .discard)).1.queuedInvocations := by
  have h := scheduler_retains_waiting_in_place (τ := Nat) [0, 1, 2]
    (fun i => if i = 0 then .wait else if i = 1 then .success else .discard)
    3
  refine ⟨by simpa using h.2.2.2.2, ?_, ?_⟩
  · exact h.2.2.1 0 (by decide) (by decide)
  · exact h.2.2.2.1 1 (by decide)

/-! ## Main-loop attempt callback (`src/translate/src/lib.rs`)

`transpile` drives the scheduler with a closure (`src/translate/src/lib.rs:39`–`79`)
that calls `tool.might_write` on the current snapshot and, for runnable
tools, `runner.spawn_tool`. The closure's decision is a pure function of
the `might_write` outcome and the spawn result; we model it as such. The
scheduler revision `lib.rs` links against is not under `src/`; per spec
§4.7 (and the in-src `scheduler.rs`), `TryLater` keeps the invocation for a
later tick, `DontTryAgain` drops it, and `Error` aborts the tick and
propagates. -/

/-- `MightWriteOutcome` (`src/ir/src/lib.rs:193`). -/
inductive MightWriteOutcome where
  | notRunnable
  | runnable (ids : Finset Id)
  | tryAgain
deriving DecidableEq

/-- The possible results of `ToolRunner::spawn_tool` as observed by the
`transpile` closure (`src/translate/src/lib.rs:62`–`79`): success, an I/O
error creating the tool-run directory, or `NewEditError::{IdInUse,
UnknownId}` from the organizer. -/
inductive SpawnResult where
  | ok
  | ioError
  | idInUse
  | unknownId
deriving DecidableEq, Repr

/-- `NextInvocationOutcome` as produced by the `transpile` closure (the
`TryLater` payload — the tool handed back for re-queueing — is tracked by
the queue model, not the outcome). -/
inductive NextInvocationOutcome where
  | dontTryAgain
  | error
  | tryLater
deriving DecidableEq, Repr

/-- The attempt callback of `transpile` (`src/translate/src/lib.rs:39`–`79`)
as a function of the tool's `might_write` outcome and, when the tool is
runnable, its spawn result. -/
def attemptCallback (mw : MightWriteOutcome) (sp : SpawnResult) :
    NextInvocationOutcome :=
  match mw with
  | .notRunnable => .dontTryAgain
  | .tryAgain => .tryLater
  | .runnable _ =>
    match sp with
    | .ioError => .error
    | .idInUse => .tryLater
    | .unknownId => .dontTryAgain
    | .ok => .dontTryAgain

/-- One scheduler tick driven by the attempt callback: each queued tool `t`
behaves as `behave t` (its `might_write` outcome and spawn result). An
`Error` outcome aborts the tick and propagates (spec §4.7); otherwise the
scheduler retains exactly the `TryLater` tools. -/
def attemptTick {τ : Type} [DecidableEq τ]
    (behave : τ → MightWriteOutcome × SpawnResult) (q : List τ) :
    Except Unit (List τ) :=
  if ∃ t ∈ q, attemptCallback (behave t).1 (behave t).2 = .error then
    .error ()
  else
    .ok (q.filter
      (fun t => attemptCallback (behave t).1 (behave t).2 = .tryLater))

/-- **C7.** In the main loop's attempt callback, a runnable tool whose
spawn fails with `IdInUse` gets outcome `TryLater` and stays in the queue
for a later tick; a runnable tool whose spawn fails with `UnknownId` gets
outcome `DontTryAgain` (after logging) and is dropped from the queue; a
successfully spawned tool gets `DontTryAgain` and is removed from the
queue. None of these three outcomes is `Error`, so none aborts the
pipeline: a tick in which no spawn hits an I/O error returns normally. -/
theorem attempt_callback_failure_handling {τ : Type} [DecidableEq τ]
    (behave : τ → MightWriteOutcome × SpawnResult) (q rest : List τ)
    (t : τ) (ids : Finset Id) :
    (attemptCallback (.runnable ids) .idInUse = .tryLater ∧
      attemptCallback (.runnable ids) .unknownId = .dontTryAgain ∧
      attemptCallback (.runnable ids) .ok = .dontTryAgain) ∧
    (∀ sp, sp ≠ .ioError → attemptCallback (.runnable ids) sp ≠ .error) ∧
    ((∀ u ∈ q, (behave u).2 ≠ .ioError) →
      attemptTick behave q =
        .ok (q.filter
          (fun u => attemptCallback (behave u).1 (behave u).2 =
            .tryLater))) ∧
    (attemptTick behave q = .ok rest →
      (t ∈ q → behave t = (.runnable ids, .idInUse) → t ∈ rest) ∧
      (behave t = (.runnable ids, .unknownId) → t ∉ rest) ∧
      (behave t = (.runnable ids, .ok) → t ∉ rest)) := by
  refine ⟨⟨rfl, rfl, rfl⟩, fun sp hsp => ?_, fun hnone => ?_,
    fun hok => ⟨fun htq hb => ?_, fun hb => ?_, fun hb => ?_⟩⟩
  · cases sp with
    | ioError => exact absurd rfl hsp
    | ok => simp [attemptCallback]
    | idInUse => simp [attemptCallback]
    | unknownId => simp [attemptCallback]
  · unfold attemptTick
    rw [if_neg]
    push_neg
    intro u hu
    have := hnone u hu
    cases hmw : (behave u).1 <;> cases hsp : (behave u).2 <;>
      simp_all [attemptCallback]
  · unfold attemptTick at hok
    split at hok
    · exact absurd hok (by simp)
    · have hrest := (Except.ok.injEq _ _).mp hok
      subst hrest
      exact List.mem_filter.mpr ⟨htq, by simp [hb, attemptCallback]⟩
  · unfold attemptTick at hok
    split at hok
    · exact absurd hok (by simp)
    · have hrest := (Except.ok.injEq _ _).mp hok
      subst hrest
      intro hmem
      have := (List.mem_filter.mp hmem).2
      simp [hb, attemptCallback] at this
  · unfold attemptTick at hok
    split at hok
    · exact absurd hok (by simp)
    · have hrest := (Except.ok.injEq _ _).mp hok
      subst hrest
      intro hmem
      have := (List.mem_filter.mp hmem).2
      simp [hb, attemptCallback] at this

/-- Witness for C7: on the concrete queue `[0, 1, 2]` where tool `0` hits
`IdInUse`, tool `1` hits `UnknownId` and tool `2` spawns successfully, the
tick returns normally with only tool `0` still queued. -/
theorem attempt_callback_failure_handling_witness :
    attemptTick (τ := Nat)
        (fun t => if t = 0 then (.runnable ∅, .idInUse)
          else if t = 1 then (.runnable ∅, .unknownId)
          else (.runnable ∅, .ok)) [0, 1, 2] = .ok [0] ∧
      (0 : Nat) ∈ [0] ∧ (1 : Nat) ∉ [0] ∧ (2 : Nat) ∉ [0] := by
  have h := attempt_callback_failure_handling (τ := Nat)
    (fun t => if t = 0 then (.runnable ∅, .idInUse)
      else if t = 1 then (.runnable ∅, .unknownId)
      else (.runnable ∅, .ok)) [0, 1, 2] [0] 0 ∅
  have h1 := attempt_callback_failure_handling (τ := Nat)
    (fun t => if t = 0 then (.runnable ∅, .idInUse)
      else if t = 1 then (.runnable ∅, .unknownId)
      else (.runnable ∅, .ok)) [0, 1, 2] [0] 1 ∅
  have h2 := attempt_callback_failure_handling (τ := Nat)
    (fun t => if t = 0 then (.runnable ∅, .idInUse)
      else if t = 1 then (.runnable ∅, .unknownId)
      else (.runnable ∅, .ok)) [0, 1, 2] [0] 2 ∅
  have htick : attemptTick (τ := Nat)
      (fun t => if t = 0 then (.runnable ∅, .idInUse)
        else if t = 1 then (.runnable ∅, .unknownId)
        else (.runnable ∅, .ok)) [0, 1, 2] = .ok [0] := by
    rw [h.2.2.1 (by decide)]
    rfl
  refine ⟨htick, (h.2.2.2 htick).1 (by decide) (by decide), ?_, ?_⟩
  · exact fun hm => (h1.2.2.2 htick).2.1 (by decide) hm
  · exact fun hm => (h2.2.2.2 htick).2.2 (by decide) hm

/-! ## Directory-tree representation (`src/ir/src/raw_source.rs`)

`RawDir(BTreeMap<OsString, RawEntry>)` is modelled as a list of
name/entry pairs; the `BTreeMap` iterates its keys in ascending order, so
the list of a map built from the filesystem is sorted strictly by name
(captured by `RawDir.sortedByName` where a theorem needs it). File contents
are byte lists. -/

mutual
/-- `RawEntry` (`src/ir/src/raw_source.rs:6`). -/
inductive RawEntry where
  | dir (d : RawDir)
  | file (contents : List Nat)
/-- `RawDir` (`src/ir/src/raw_source.rs:28`). -/
inductive RawDir where
  | mk (entries : List (String × RawEntry))
end

/-- The entry list of a `RawDir`. -/
def RawDir.entries : RawDir → List (String × RawEntry)
  | .mk es => es

/-- `"  ".repeat(level)` (`src/ir/src/raw_source.rs:86`). -/
def pad : Nat → String
  | 0 => ""
  | n + 1 => "  " ++ pad n

/-- The line printed for a file entry:
`"{pad}{name} ({len}B)"` (`src/ir/src/raw_source.rs:101`). -/
def fileLine (lvl : Nat) (n : String) (contents : List Nat) : String :=
  pad lvl ++ n ++ " (" ++ toString contents.length ++ "B)"

/-- The second pass of `RawDir::display` (`src/ir/src/raw_source.rs:96`–`102`):
one line per file entry, in map order, padded by the *current* level. -/
def fileLines (lvl : Nat) (entries : List (String × RawEntry)) :
    List String :=
  entries.filterMap fun e =>
    match e with
    | (n, .file c) => some (fileLine lvl n c)
    | _ => none

mutual
/-- `RawDir::display` (`src/ir/src/raw_source.rs:85`–`105`), as the list of
lines it writes: first every directory entry (name line, then the
subdirectory's lines — the source recurses with the literal level `1`),
then every file entry. -/
def RawDir.displayLines : Nat → RawDir → List String
  | lvl, .mk entries => dirLines lvl entries ++ fileLines lvl entries
/-- The first pass of `RawDir::display` (`src/ir/src/raw_source.rs:87`–`94`):
for each directory entry, its padded name followed by `entry.display(1, f)`. -/
def dirLines : Nat → List (String × RawEntry) → List String
  | _, [] => []
  | lvl, (n, .dir d) :: rest =>
      ((pad lvl ++ n) :: RawDir.displayLines 1 d) ++ dirLines lvl rest
  | lvl, (_, .file _) :: rest => dirLines lvl rest
end

mutual
/-- What claim C9 describes (a rendering that lists all entries of a
directory in name order — i.e. in map order — and indents each entry
proportionally to its nesting depth, recursing with `level + 1`). Stated
for comparison with `RawDir.displayLines`. -/
def displayClaimLines : Nat → RawDir → List String
  | lvl, .mk entries => claimEntryLines lvl entries
/-- Helper for `displayClaimLines`: one pass over all entries in order. -/
def claimEntryLines : Nat → List (String × RawEntry) → List String
  | _, [] => []
  | lvl, (n, .dir d) :: rest =>
      ((pad lvl ++ n) :: displayClaimLines (lvl + 1) d) ++
        claimEntryLines lvl rest
  | lvl, (n, .file c) :: rest => fileLine lvl n c :: claimEntryLines lvl rest
end

/-- A sample sorted tree: file `a` (1 byte) and directory `b` containing
directory `c` containing file `d` (empty). -/
def sampleTree : RawDir :=
  .mk [("a", .file [0]),
    ("b", .dir (.mk [("c", .dir (.mk [("d", .file [])]))]))]

/-- **C9 counterexample.** On `sampleTree`, `RawDir::display` prints the
directory `b` before the file `a` (entries are not listed in name order:
directories come first), and prints `d` — nested two levels deep — with a
single indent step, the same as `c`. The rendering the claim describes
(name order, indent proportional to depth) differs. -/
theorem rawdir_display_counterexample :
    RawDir.displayLines 0 sampleTree = ["b", "  c", "  d (0B)", "a (1B)"] ∧
    displayClaimLines 0 sampleTree =
      ["a (1B)", "b", "  c", "    d (0B)"] ∧
    RawDir.displayLines 0 sampleTree ≠ displayClaimLines 0 sampleTree := by
  refine ⟨by decide, by decide, by decide⟩

/-- The directory entries of an entry list, as (name, subdirectory) pairs,
in entry order (the `filter_map` of the first display pass). -/
def dirEntries (entries : List (String × RawEntry)) :
    List (String × RawDir) :=
  entries.filterMap fun e =>
    match e with
    | (n, .dir d) => some (n, d)
    | _ => none

/-- The file entries of an entry list, as (name, contents) pairs, in entry
order (the `filter_map` of the second display pass). -/
def fileEntries (entries : List (String × RawEntry)) :
    List (String × List Nat) :=
  entries.filterMap fun e =>
    match e with
    | (n, .file c) => some (n, c)
    | _ => none

/-- A subdirectory reachable through `dirEntries` is structurally smaller
than the directory holding it. -/
theorem sizeOf_lt_of_mem_dirEntries {entries : List (String × RawEntry)}
    {p : String × RawDir} (hp : p ∈ dirEntries entries) :
    sizeOf p.2 < sizeOf (RawDir.mk entries) := by
  obtain ⟨e, he, hmatch⟩ := List.mem_filterMap.mp hp
  obtain ⟨n, entry⟩ := e
  have hsz := List.sizeOf_lt_of_mem he
  cases entry with
  | dir d =>
    simp only [Option.some.injEq] at hmatch
    subst hmatch
    simp only at hsz ⊢
    simp only [Prod.mk.sizeOf_spec, RawEntry.dir.sizeOf_spec,
      RawDir.mk.sizeOf_spec] at hsz ⊢
    omega
  | file c => simp at hmatch

/-- The rendering C9 amends to: for each directory list the subdirectory
entries first, ordered by entry name, then the file entries, ordered by
entry name, and indent every nested entry exactly one step (the root's
entries get the caller's level). Sorting is explicit here; in
`RawDir::display` it is inherited from the `BTreeMap` iteration order. -/
def displayAmended (lvl : Nat) : RawDir → List String
  | .mk entries =>
    (((dirEntries entries).insertionSort (fun a b => a.1 ≤ b.1)).attach.flatMap
        fun x => (pad lvl ++ x.1.1) :: displayAmended 1 x.1.2) ++
      ((fileEntries entries).insertionSort (fun a b => a.1 ≤ b.1)).map
        fun e => fileLine lvl e.1 e.2
termination_by d => sizeOf d
decreasing_by
  exact sizeOf_lt_of_mem_dirEntries
    ((List.mem_insertionSort (fun a b => a.1 ≤ b.1)).mp x.2)

mutual
/-- The `BTreeMap` invariant: every directory's entry list is strictly
sorted by name, recursively. Holds for every `RawDir` built by
`RawDir::populate_from`. -/
def RawDir.sortedByName : RawDir → Prop
  | .mk entries =>
      entries.Pairwise (fun a b => a.1 < b.1) ∧ entriesSorted entries
/-- Helper for `RawDir.sortedByName`: the subdirectories of an entry list
are recursively sorted. -/
def entriesSorted : List (String × RawEntry) → Prop
  | [] => True
  | (_, .dir d) :: rest => RawDir.sortedByName d ∧ entriesSorted rest
  | (_, .file _) :: rest => entriesSorted rest
end

/-- Subdirectories of a sorted entry list are sorted. -/
theorem sortedByName_of_mem_dirEntries :
    ∀ {entries : List (String × RawEntry)}, entriesSorted entries →
      ∀ {p : String × RawDir}, p ∈ dirEntries entries →
        RawDir.sortedByName p.2 := by
  intro entries
  induction entries with
  | nil => intro _ p hp; simp [dirEntries] at hp
  | cons e rest ih =>
    intro hs p hp
    obtain ⟨n, entry⟩ := e
    cases entry with
    | dir d =>
      rw [show entriesSorted ((n, .dir d) :: rest) =
        (RawDir.sortedByName d ∧ entriesSorted rest) from rfl] at hs
      simp only [dirEntries, List.filterMap_cons] at hp
      rcases List.mem_cons.mp hp with h | h
      · rw [h]; exact hs.1
      · exact ih hs.2 h
    | file c =>
      rw [show entriesSorted ((n, .file c) :: rest) =
        entriesSorted rest from rfl] at hs
      simp only [dirEntries, List.filterMap_cons] at hp
      exact ih hs hp

/-- `dirLines` is the flat map of the directory entries. -/
theorem dirLines_eq_flatMap (lvl : Nat) :
    ∀ entries : List (String × RawEntry),
      dirLines lvl entries = (dirEntries entries).flatMap
        fun p => (pad lvl ++ p.1) :: RawDir.displayLines 1 p.2 := by
  intro entries
  induction entries with
  | nil => simp [dirLines, dirEntries]
  | cons e rest ih =>
    obtain ⟨n, entry⟩ := e
    cases entry with
    | dir d =>
      simp only [dirLines, dirEntries, List.filterMap_cons,
        List.flatMap_cons] at ih ⊢
      rw [ih]
    | file c =>
      simp only [dirLines, dirEntries, List.filterMap_cons] at ih ⊢
      exact ih

/-- `fileLines` is the map of the file entries. -/
theorem fileLines_eq_map (lvl : Nat) :
    ∀ entries : List (String × RawEntry),
      fileLines lvl entries = (fileEntries entries).map
        fun p => fileLine lvl p.1 p.2 := by
  intro entries
  induction entries with
  | nil => simp [fileLines, fileEntries]
  | cons e rest ih =>
    obtain ⟨n, entry⟩ := e
    cases entry with
    | dir d =>
      simp only [fileLines, fileEntries, List.filterMap_cons] at ih ⊢
      exact ih
    | file c =>
      simp only [fileLines, fileEntries, List.filterMap_cons,
        List.map_cons] at ih ⊢
      rw [ih]

/-- Name order survives `dirEntries` (weakened to `≤` for sorting). -/
theorem dirEntries_sorted {entries : List (String × RawEntry)}
    (h : entries.Pairwise fun a b => a.1 < b.1) :
    (dirEntries entries).Sorted fun a b => a.1 ≤ b.1 := by
  refine List.Pairwise.filterMap _ (fun a b hab x hx y hy => ?_) h
  obtain ⟨na, ea⟩ := a
  obtain ⟨nb, eb⟩ := b
  cases ea with
  | dir da =>
    cases eb with
    | dir db =>
      rw [Option.mem_def, Option.some.injEq] at hx hy
      subst hx
      subst hy
      exact le_of_lt hab
    | file cb => simp [Option.mem_def] at hy
  | file ca => simp [Option.mem_def] at hx

/-- Name order survives `fileEntries` (weakened to `≤` for sorting). -/
theorem fileEntries_sorted {entries : List (String × RawEntry)}
    (h : entries.Pairwise fun a b => a.1 < b.1) :
    (fileEntries entries).Sorted fun a b => a.1 ≤ b.1 := by
  refine List.Pairwise.filterMap _ (fun a b hab x hx y hy => ?_) h
  obtain ⟨na, ea⟩ := a
  obtain ⟨nb, eb⟩ := b
  cases ea with
  | dir da => simp [Option.mem_def] at hx
  | file ca =>
    cases eb with
    | dir db => simp [Option.mem_def] at hy
    | file cb =>
      rw [Option.mem_def, Option.some.injEq] at hx hy
      subst hx
      subst hy
      exact le_of_lt hab

/-- Flat-mapping over `attach` is flat-mapping over the list. -/
theorem attach_flatMap {α β : Type} (l : List α) (g : α → List β) :
    (l.attach.flatMap fun x => g x.1) = l.flatMap g := by
  rw [List.flatMap_def, List.flatMap_def, List.attach_map_val]

/-- Fuel-indexed version of the C9 amended claim. -/
theorem displayLines_eq_amended_aux :
    ∀ (fuel : Nat) (d : RawDir), sizeOf d ≤ fuel → RawDir.sortedByName d →
      ∀ lvl, RawDir.displayLines lvl d = displayAmended lvl d := by
  intro fuel
  induction fuel with
  | zero =>
    intro d hsz
    cases d with
    | mk entries =>
      simp only [RawDir.mk.sizeOf_spec] at hsz
      omega
  | succ m ih =>
    intro d hsz hsort lvl
    cases d with
    | mk entries =>
      rw [show RawDir.sortedByName (.mk entries) =
        (entries.Pairwise (fun a b => a.1 < b.1) ∧ entriesSorted entries)
        from rfl] at hsort
      rw [displayAmended]
      rw [show RawDir.displayLines lvl (.mk entries) =
        dirLines lvl entries ++ fileLines lvl entries from rfl]
      rw [dirLines_eq_flatMap, fileLines_eq_map]
      rw [(dirEntries_sorted hsort.1).insertionSort_eq,
        (fileEntries_sorted hsort.1).insertionSort_eq]
      rw [attach_flatMap (dirEntries entries)
        (fun p => (pad lvl ++ p.1) :: displayAmended 1 p.2)]
      congr 1
      rw [List.flatMap_def, List.flatMap_def]
      congr 1
      refine List.map_congr_left fun p hp => ?_
      have hlt := sizeOf_lt_of_mem_dirEntries hp
      simp only [RawDir.mk.sizeOf_spec] at hlt hsz
      rw [ih p.2 (by omega) (sortedByName_of_mem_dirEntries hsort.2 hp) 1]

/-- **C9 amended.** For every directory tree whose entry lists are sorted
by name (the `BTreeMap` invariant), `RawDir::display` lists, for each
directory, its subdirectory entries first, ordered by entry name, then its
file entries, ordered by entry name; nested entries are indented exactly
one step regardless of depth (only the root's entries use the caller's
level). -/
theorem rawdir_display_grouped_one_step (d : RawDir)
    (h : RawDir.sortedByName d) (lvl : Nat) :
    RawDir.displayLines lvl d = displayAmended lvl d :=
  displayLines_eq_amended_aux (sizeOf d) d le_rfl h lvl

/-- Witness for C9 (amended): the sample tree is sorted by name and its
display matches the amended rendering. -/
theorem rawdir_display_grouped_one_step_witness :
    RawDir.displayLines 0 sampleTree = displayAmended 0 sampleTree :=
  rawdir_display_grouped_one_step sampleTree
    (by
      have hab : ("a" : String) < "b" := by
        rw [String.lt_iff_toList_lt]; decide
      refine ⟨?_, ?_⟩
      · exact List.pairwise_cons.mpr ⟨fun b hb => by
          rcases List.mem_singleton.mp hb with h
          rw [h]; exact hab, List.pairwise_singleton _ _⟩
      · exact ⟨⟨List.pairwise_singleton _ _,
          ⟨List.pairwise_singleton _ _, trivial⟩, trivial⟩, trivial⟩)
    0

/-! ## Representations and HarvestIR (`src/ir/src/lib.rs`, tool kinds)

The representation kinds the shipped tools produce, with the kind names the
sources declare (`Representation::name`). `HarvestIR` is a `BTreeMap` from
`Id` to representation; modelled as its entry list. -/

/-- The representation kinds used by the shipped tools:
`RawSource` (`src/translate/src/tools/load_raw_source.rs:47`), `CargoPackage`
(`src/translate/src/tools/raw_source_to_cargo_llm/mod.rs:171`),
`CargoBuildResult` (`src/translate/src/tools/try_cargo_build.rs:16`) and
`ProjectKind` (`src/translate/src/tools/identify_project_kind.rs:7`). -/
inductive Representation where
  | rawSource (dir : RawDir)
  | cargoPackage (dir : RawDir)
  | cargoBuildResult (success : Bool)
  | projectKind (isLibrary : Bool)

/-- `Representation::name` as implemented by each kind (note the source
names the `ProjectKind` representation `"KindAndName"`,
`src/translate/src/tools/identify_project_kind.rs:23`). -/
def Representation.name : Representation → String
  | .rawSource _ => "RawSource"
  | .cargoPackage _ => "CargoPackage"
  | .cargoBuildResult _ => "CargoBuildResult"
  | .projectKind _ => "KindAndName"

/-- `HarvestIR` (`src/ir/src/lib.rs:25`): the `BTreeMap` entry list, in
ascending id order. -/
structure HarvestIR where
  representations : List (Id × Representation)

/-- `ir.get_by_representation::<RawSource>().next()`, as used by the tools:
the first `RawSource` entry's directory. -/
def HarvestIR.firstRawSource (ir : HarvestIR) : Option RawDir :=
  (ir.representations.filterMap fun p =>
    match p.2 with
    | .rawSource d => some d
    | _ => none).head?

/-- The `CargoPackage` representations of the IR
(`src/translate/src/tools/try_cargo_build.rs:87`). -/
def HarvestIR.cargoPackages (ir : HarvestIR) : List RawDir :=
  ir.representations.filterMap fun p =>
    match p.2 with
    | .cargoPackage d => some d
    | _ => none

/-! ## Shipped tools' `might_write` (C8)

Each tool's `might_write` takes `&mut self`; we model it as a state-passing
function returning the outcome together with the (possibly updated) tool
state, which makes "the tool state is not mutated" a provable statement
rather than an assumption. -/

/-- `LoadRawSource` (`src/translate/src/tools/load_raw_source.rs:9`): its
only state is the input directory given at construction. -/
structure LoadRawSource where
  directory : String

/-- `LoadRawSource::might_write`
(`src/translate/src/tools/load_raw_source.rs:28`): always
`Runnable(∅)`. -/
def LoadRawSource.mightWrite (t : LoadRawSource) (_ir : HarvestIR) :
    MightWriteOutcome × LoadRawSource :=
  (.runnable ∅, t)

/-- `IdentifyProjectKind` — a unit struct
(`src/translate/src/tools/identify_project_kind.rs:35`). -/
structure IdentifyProjectKind where

/-- `IdentifyProjectKind::might_write`
(`src/translate/src/tools/identify_project_kind.rs:42`): `TryAgain` until a
`RawSource` exists, then `Runnable(∅)`. -/
def IdentifyProjectKind.mightWrite (t : IdentifyProjectKind)
    (ir : HarvestIR) : MightWriteOutcome × IdentifyProjectKind :=
  (match ir.firstRawSource with
    | none => .tryAgain
    | some _ => .runnable ∅, t)

/-- `RawSourceToCargoLlm`
(`src/translate/src/tools/raw_source_to_cargo_llm/mod.rs:97`): holds the
LLM handle (opaque here) and the previous build results given at
construction. -/
structure RawSourceToCargoLlm where
  llm : Nat
  previousBuildResults : List String

/-- `RawSourceToCargoLlm::might_write`
(`src/translate/src/tools/raw_source_to_cargo_llm/mod.rs:115`): `TryAgain`
until a `RawSource` exists, then `Runnable(∅)`. -/
def RawSourceToCargoLlm.mightWrite (t : RawSourceToCargoLlm)
    (ir : HarvestIR) : MightWriteOutcome × RawSourceToCargoLlm :=
  (match ir.firstRawSource with
    | none => .tryAgain
    | some _ => .runnable ∅, t)

/-- `TryCargoBuild` — a unit struct
(`src/translate/src/tools/try_cargo_build.rs:13`). -/
structure TryCargoBuild where

/-- `TryCargoBuild::might_write`
(`src/translate/src/tools/try_cargo_build.rs:108`, over the `Option`-valued
tool trait of that revision): `raw_cargo_package(ir).ok().map(|_| ∅)`,
i.e. `some ∅` exactly when the IR holds exactly one `CargoPackage`. -/
def TryCargoBuild.mightWrite (t : TryCargoBuild) (ir : HarvestIR) :
    Option (Finset Id) × TryCargoBuild :=
  (if ir.cargoPackages.length = 1 then some ∅ else none, t)

/-- **C8.** For every shipped tool (`load_raw_source`,
`IdentifyProjectKind`, `RawSourceToCargoLlm`, `TryCargoBuild`), calling
`might_write` leaves the tool state unchanged, and calling it again on the
same IR snapshot yields the same outcome: the outcome is a deterministic
function of the snapshot and the tool's construction arguments alone. -/
theorem might_write_deterministic_in_snapshot (l : LoadRawSource)
    (i : IdentifyProjectKind) (r : RawSourceToCargoLlm) (tb : TryCargoBuild)
    (ir : HarvestIR) :
    ((l.mightWrite ir).2 = l ∧
      (((l.mightWrite ir).2).mightWrite ir).1 = (l.mightWrite ir).1) ∧
    ((i.mightWrite ir).2 = i ∧
      (((i.mightWrite ir).2).mightWrite ir).1 = (i.mightWrite ir).1) ∧
    ((r.mightWrite ir).2 = r ∧
      (((r.mightWrite ir).2).mightWrite ir).1 = (r.mightWrite ir).1) ∧
    ((tb.mightWrite ir).2 = tb ∧
      (((tb.mightWrite ir).2).mightWrite ir).1 = (tb.mightWrite ir).1) :=
  ⟨⟨rfl, rfl⟩, ⟨rfl, rfl⟩, ⟨rfl, rfl⟩, ⟨rfl, rfl⟩⟩

/-! ## Diagnostics (`src/translate/src/diagnostics.rs`,
`src/translate/src/diagnostics/mod.rs`)

`Reporter::report_ir_version` (identical in both revisions) is a sequence
of filesystem effects; we model the effects as an explicit trace and the
fallible primitives (`create_dir`, `materialize`, `write`) through a
failure oracle. All paths are relative to the diagnostics root. -/

/-- One filesystem effect attempted by the diagnostics code. -/
inductive FsEffect where
  | createDir (path : List String)
  | materializeRepr (path : List String) (kind : String)
  | writeFile (path : List String) (content : String)
deriving DecidableEq

/-- Which I/O operations fail (each failure is logged by the source and
never propagated). -/
structure IoOracle where
  createDirFails : Bool
  materializeFails : Id → Bool
  writeFails : Bool

/-- The state behind the collector's `Arc<Mutex<Option<Shared>>>`
(`src/translate/src/diagnostics.rs:163`): `none` once
`Collector::diagnostics` has taken it. Only the diagnostics directory is
relevant to the modelled operations. -/
structure DiagShared where
  diagnosticsDir : List String

/-- A run of `k` zero characters. -/
def zeroPad : Nat → String
  | 0 => ""
  | k + 1 => "0" ++ zeroPad k

/-- `format!("{:03}")`: decimal, left-padded with zeros to width 3. -/
def pad3 (n : Nat) : String :=
  zeroPad (3 - (toString n).length) ++ toString n

/-- The `types` vector of `report_ir_version` after
`sort_unstable_by_key(|t| t.0)` (`src/translate/src/diagnostics.rs:113`–`126`):
one `(id, "III: KindName")` pair per snapshot entry, sorted ascending by
id. (The source's unstable sort and this stable sort agree on the key
order; `BTreeMap` keys are distinct anyway.) -/
def indexEntries (snapshot : List (Id × Representation)) :
    List (Id × String) :=
  (snapshot.map fun p => (p.1, pad3 p.1 ++ ": " ++ p.2.name)).insertionSort
    fun a b => a.1 ≤ b.1

/-- The contents written to `ir/NNN/index`
(`src/translate/src/diagnostics.rs:127`–`130`): one line per entry. -/
def indexContent (snapshot : List (Id × Representation)) : String :=
  String.join ((indexEntries snapshot).map fun e => e.2 ++ "\n")

/-- `Reporter::report_ir_version` (`src/translate/src/diagnostics.rs:102`–`135`
and `src/translate/src/diagnostics/mod.rs:133`–`166`) as the trace of
filesystem effects it attempts. If the shared state was taken, it returns
immediately with no effects. It creates `ir/NNN`, returning early (after a
log line) if that fails; otherwise it materializes each representation at
`ir/NNN/III` (failures logged, loop continues) and writes the index
(failure logged). The function has no error return: it always returns
normally. -/
def reportIrVersion (o : IoOracle) (shared : Option DiagShared)
    (version : Nat) (snapshot : List (Id × Representation)) :
    List FsEffect :=
  match shared with
  | none => []
  | some sh =>
    let dirPath := sh.diagnosticsDir ++ ["ir", pad3 version]
    if o.createDirFails then
      [.createDir dirPath]
    else
      .createDir dirPath ::
        (snapshot.map fun p =>
          .materializeRepr (dirPath ++ [pad3 p.1]) p.2.name) ++
        [.writeFile (dirPath ++ ["index"]) (indexContent snapshot)]

/-- `Collector::diagnostics` (`src/translate/src/diagnostics.rs:79`–`84`):
`lock_shared(..).take()` — returns the shared state and leaves `none` in
the cell every `Reporter` clone points at. -/
def collectorDiagnostics (shared : Option DiagShared) :
    Option DiagShared × Option DiagShared :=
  (shared, none)

/-- **C6.** For every version number and snapshot (with the collector's
shared state live), `report_ir_version` creates `ir/NNN` with the version
zero-padded to three digits, materializes each representation of the
snapshot at `ir/NNN/III`, and writes an index containing exactly one line
`III: KindName` per representation, ordered by ascending id. I/O errors
are logged and the function still returns a trace normally: if creating the
directory fails it stops after that single attempt, and materialization or
write failures do not change the attempted effects (no error propagates —
the function has no error return at all). -/
theorem report_ir_version_trace (o : IoOracle) (sh : DiagShared)
    (version : Nat) (snapshot : List (Id × Representation)) :
    (o.createDirFails = false →
      reportIrVersion o (some sh) version snapshot =
        .createDir (sh.diagnosticsDir ++ ["ir", pad3 version]) ::
          (snapshot.map fun p => .materializeRepr
            (sh.diagnosticsDir ++ ["ir", pad3 version, pad3 p.1])
            p.2.name) ++
          [.writeFile (sh.diagnosticsDir ++ ["ir", pad3 version, "index"])
            (indexContent snapshot)]) ∧
    (o.createDirFails = true →
      reportIrVersion o (some sh) version snapshot =
        [.createDir (sh.diagnosticsDir ++ ["ir", pad3 version])]) ∧
    ((indexEntries snapshot).map Prod.fst).Sorted (· ≤ ·) ∧
    (indexEntries snapshot).Perm
      (snapshot.map fun p => (p.1, pad3 p.1 ++ ": " ++ p.2.name)) ∧
    (indexEntries snapshot).length = snapshot.length := by
  haveI : IsTotal (Id × String) (fun a b => a.1 ≤ b.1) :=
    ⟨fun a b => Nat.le_total a.1 b.1⟩
  haveI : IsTrans (Id × String) (fun a b => a.1 ≤ b.1) :=
    ⟨fun _ _ _ => Nat.le_trans⟩
  refine ⟨fun hc => ?_, fun hc => ?_, ?_, ?_, ?_⟩
  · simp [reportIrVersion, hc, List.append_assoc]
  · simp [reportIrVersion, hc]
  · exact List.pairwise_map.mpr (List.sorted_insertionSort _ _)
  · exact List.perm_insertionSort _ _
  · unfold indexEntries
    rw [(List.perm_insertionSort _ _).length_eq, List.length_map]

/-- Witness for C6: a concrete report of version 2 over a two-entry
snapshot (a `RawSource` under id 10 and a `CargoPackage` under id 3,
listed out of order) yields the full trace with the index lines sorted by
id, and with `createDirFails` it attempts only the directory creation. -/
theorem report_ir_version_trace_witness :
    reportIrVersion ⟨false, fun _ => false, false⟩ (some ⟨["diag"]⟩) 2
        [(10, .rawSource (.mk [])), (3, .cargoPackage (.mk []))] =
      [.createDir ["diag", "ir", "002"],
        .materializeRepr ["diag", "ir", "002", "010"] "RawSource",
        .materializeRepr ["diag", "ir", "002", "003"] "CargoPackage",
        .writeFile ["diag", "ir", "002", "index"]
          "003: CargoPackage\n010: RawSource\n"] ∧
    reportIrVersion ⟨true, fun _ => false, false⟩ (some ⟨["diag"]⟩) 2
        [(10, .rawSource (.mk [])), (3, .cargoPackage (.mk []))] =
      [.createDir ["diag", "ir", "002"]] := by
  have h := report_ir_version_trace ⟨false, fun _ => false, false⟩ ⟨["diag"]⟩
    2 [(10, .rawSource (.mk [])), (3, .cargoPackage (.mk []))]
  have h2 := report_ir_version_trace ⟨true, fun _ => false, false⟩ ⟨["diag"]⟩
    2 [(10, .rawSource (.mk [])), (3, .cargoPackage (.mk []))]
  constructor
  · rw [h.1 rfl]
    rfl
  · rw [h2.2.1 rfl]
    rfl

/-- **C10.** After `Collector::diagnostics` has taken the shared state,
every subsequent `report_ir_version` on a surviving `Reporter` handle is a
no-op: it returns normally with an empty effect trace — no directory
created, no representation materialized, no index written — for every
version, snapshot and I/O oracle. -/
theorem report_ir_version_after_diagnostics_noop (o : IoOracle)
    (shared : Option DiagShared) (version : Nat)
    (snapshot : List (Id × Representation)) :
    (collectorDiagnostics shared).2 = none ∧
    reportIrVersion o (collectorDiagnostics shared).2 version snapshot =
      [] :=
  ⟨rfl, rfl⟩

end Harvest
